import Mathlib

/-!
Verification of the entity aggregation routine of the Panama field-reports
dashboard (`streamlit_app.py`).

The routine `extract_entities_from_sentiment_data` consumes the parsed
sentiment JSON (a value that is either `None` or a mapping that may carry a
`documents` key), walks every document's `entities` mapping in order, and
builds a deduplicated roster of entity records with aggregated mention
counts and a resolved sentiment label.  `create_entity_dataframe` then sorts
the roster by `mention_count` descending via pandas.

The embedding below mirrors the Python line by line: a mention is a record
of three optional string fields (`dict.get` with defaults), a document is an
association list from the mention key to the mention (iteration order of the
mapping is the list order), and the top-level value distinguishes `None`
from a mapping, recording whether a `documents` key is present and how many
other keys the mapping has (so Python truthiness of the mapping is
expressible).
-/

namespace Panama

/-- An entity mention as parsed from the sentiment JSON.  Every field may be
absent, in which case `dict.get` supplies a default. -/
structure EntityMention where
  entity_name : Option String
  sentiment : Option String
  entity_type : Option String
deriving DecidableEq, Repr

/-- A document of the sentiment JSON: its `entities` mapping, as the ordered
association list the Python `for entity_id, entity_data in ... .items()`
loop traverses. -/
structure Document where
  entities : List (String × EntityMention)
deriving DecidableEq, Repr

/-- The top-level value handed to the aggregator: Python `None`, or a
mapping.  For a mapping we record the value of its `documents` key (if
present) and the number of OTHER keys, which is what Python truthiness of
the mapping (`if not data`) depends on. -/
inductive SentimentData where
  | null : SentimentData
  | obj : Option (List Document) → Nat → SentimentData
deriving DecidableEq, Repr

/-- Python truthiness of the input: `None` and the empty mapping are falsy,
every nonempty mapping is truthy. -/
def SentimentData.truthy : SentimentData → Bool
  | .null => false
  | .obj docs extra => docs.isSome || extra != 0

/-- The `data.get('documents', [])` lookup (line 107).  For `None` the
Python guard has already returned, so the value here is irrelevant; we pick
the empty list. -/
def SentimentData.documentsField : SentimentData → List Document
  | .null => []
  | .obj docs _ => docs.getD []

/-- Resolution of a mention's name: `entity_data.get('entity_name', 'Unknown')`
(line 112). -/
def resolvedName (m : EntityMention) : String :=
  m.entity_name.getD "Unknown"

/-- Resolution of a mention's sentiment: `entity_data.get('sentiment', 'neutral')`
(line 113). -/
def resolvedSentiment (m : EntityMention) : String :=
  m.sentiment.getD "neutral"

/-- Resolution of a mention's type: `entity_data.get('entity_type', 'Unknown')`
(line 114). -/
def resolvedType (m : EntityMention) : String :=
  m.entity_type.getD "Unknown"

/-- The hardcoded role table `entity_roles` (lines 99-104),
as the ordered association list of its items. -/
def entity_roles : List (String × String) :=
  [("José Raúl Mulino", "President of Panama"),
   ("Ana Rojas", "Defense Chief"),
   ("Carlos Méndez", "Minister of the Interior"),
   ("Marta Linares", "Vice President")]

/-- Lookup of a name in the role table: `some` of the stored role when the
name is a key of the table, `none` otherwise. -/
def roleLookup (n : String) : Option String :=
  (entity_roles.find? (fun p => p.1 == n)).map Prod.snd

/-- The defaulted lookup `entity_roles.get(entity_name, "Unknown Role")`
(line 117). -/
def rolesGet (n : String) : String :=
  (roleLookup n).getD "Unknown Role"

/-- An aggregated entity record, as the dict built at lines 128-134. -/
structure EntityRecord where
  name : String
  type : String
  sentiment : String
  mention_count : Nat
  government_role : String
deriving DecidableEq, Repr

/-- The in-place mutation of an existing record (lines 123-126): increment
`mention_count`, and set `sentiment` to `"mixed"` when the mention's
sentiment differs from the record's current one. -/
def updRec (sentiment : String) (e : EntityRecord) : EntityRecord :=
  { e with
    mention_count := e.mention_count + 1,
    sentiment := if sentiment ≠ e.sentiment then "mixed" else e.sentiment }

/-- The update of an existing record (lines 122-126): the first record in
the list whose `name` equals the mention's resolved name (the one `next`
returns at line 120) gets mutated by `updRec`. -/
def updateExisting (entity_name sentiment : String) :
    List EntityRecord → List EntityRecord
  | [] => []
  | e :: rest =>
    if e.name == entity_name then
      updRec sentiment e :: rest
    else
      e :: updateExisting entity_name sentiment rest

/-- Processing of one mention against the accumulated roster (the body of
the inner loop, lines 111-134): resolve the fields, look the name up in the
roster (`next((e for e in entities if e['name'] == entity_name), None)`,
line 120), and either update the existing record or append a fresh one. -/
def processMention (entities : List EntityRecord) (m : EntityMention) :
    List EntityRecord :=
  let entity_name := resolvedName m
  let sentiment := resolvedSentiment m
  let entity_type := resolvedType m
  let government_role := rolesGet entity_name
  if (entities.find? (fun e => e.name == entity_name)).isSome then
    updateExisting entity_name sentiment entities
  else
    entities ++ [{ name := entity_name, type := entity_type,
                   sentiment := sentiment, mention_count := 1,
                   government_role := government_role }]

/-- Processing of one document (the outer loop body, lines 109-111): walk
`doc.get('entities', {}).items()` in order, feeding each mention to
`processMention`.  A document lacking the `entities` key is the one with
the empty association list. -/
def processDocument (entities : List EntityRecord) (doc : Document) :
    List EntityRecord :=
  doc.entities.foldl (fun acc p => processMention acc p.2) entities

/-- The aggregator `extract_entities_from_sentiment_data` (lines 93-136):
return `[]` for falsy input, otherwise fold the two loops over
`data.get('documents', [])` starting from the empty roster. -/
def extract_entities_from_sentiment_data (data : SentimentData) :
    List EntityRecord :=
  if data.truthy then data.documentsField.foldl processDocument [] else []

/-- The mentions of one document, in iteration order (the keys are ignored
by the aggregation logic). -/
def docMentions (doc : Document) : List EntityMention :=
  doc.entities.map Prod.snd

/-- All mentions of the input, in processing order: documents in sequence
order, mentions in mapping iteration order. -/
def allMentions (data : SentimentData) : List EntityMention :=
  (data.documentsField.map docMentions).flatten

/-- The sublist of `ms` whose resolved name is `n`, in order. -/
def mentionsNamed (n : String) (ms : List EntityMention) : List EntityMention :=
  ms.filter (fun m => resolvedName m == n)

/-- First-occurrence deduplication: the distinct values of `l` in the order
each value first appears.  This is exactly how the roster accumulates
names. -/
def seenNames (l : List String) : List String :=
  l.foldl (fun acc n => if n ∈ acc then acc else acc ++ [n]) []

/-- The sentiment-merge fold of lines 124-126: starting from the record's
current sentiment, each further mention whose sentiment differs from the
current value forces `"mixed"`. -/
def foldSentiment (cur : String) (ss : List String) : String :=
  ss.foldl (fun c s => if s ≠ c then "mixed" else c) cur

/-- The names of the roster's records, in roster order. -/
def recordsNames (es : List EntityRecord) : List String :=
  es.map (·.name)

/-- The sentiment of the first roster record named `n`, when one exists. -/
def sentimentOf (es : List EntityRecord) (n : String) : Option String :=
  (es.find? (fun e => e.name == n)).map (·.sentiment)

/-- A record `e` of the roster summarizes the processed mention list `ms`
when the mentions of `ms` bearing `e.name` are nonempty and `e` was built
from them the way the loop builds it: `type` and the creation-time fields
come from the first such mention, `mention_count` counts them all, and
`sentiment` is the merge fold of their sentiments. -/
def Summarizes (ms : List EntityMention) (e : EntityRecord) : Prop :=
  ∃ m rest, mentionsNamed e.name ms = m :: rest ∧
    e.type = resolvedType m ∧
    e.government_role = rolesGet e.name ∧
    e.mention_count = rest.length + 1 ∧
    e.sentiment = foldSentiment (resolvedSentiment m) (rest.map resolvedSentiment)

/-- Loop invariant of the aggregation pass: after processing the mentions
`ms`, the roster's names are the first-occurrence deduplication of the
resolved names of `ms`, and every record summarizes its mentions. -/
def Good (ms : List EntityMention) (es : List EntityRecord) : Prop :=
  recordsNames es = seenNames (ms.map resolvedName) ∧
  ∀ e ∈ es, Summarizes ms e

/-- A sample document carrying one negative mention of entity `A`. -/
def sampleDoc1 : Document :=
  ⟨[("0", ⟨some "A", some "negative", some "PERSON"⟩)]⟩

/-- A sample document carrying a positive mention of `A` and a neutral
mention of `B`. -/
def sampleDoc2 : Document :=
  ⟨[("0", ⟨some "A", some "positive", some "PERSON"⟩),
    ("1", ⟨some "B", some "neutral", some "ORG"⟩)]⟩

/-- The two-document sample input of the specification's concrete
scenario. -/
def sampleData : SentimentData := .obj (some [sampleDoc1, sampleDoc2]) 0

/-- The aggregated record for `A` in the sample input: two mentions with
disagreeing sentiments. -/
def sampleRecordA : EntityRecord := ⟨"A", "PERSON", "mixed", 2, "Unknown Role"⟩

/-- A one-document input mentioning an entity that is a key of the role
table. -/
def roleData : SentimentData :=
  .obj (some [⟨[("0", ⟨some "Ana Rojas", some "positive", some "PERSON"⟩)]⟩]) 0

/-- The aggregated record for the role-table entity of `roleData`. -/
def roleRecord : EntityRecord :=
  ⟨"Ana Rojas", "PERSON", "positive", 1, "Defense Chief"⟩

lemma processMention_pos (es : List EntityRecord) (m : EntityMention)
    (hfind : (es.find? (fun e => e.name == resolvedName m)).isSome) :
    processMention es m =
      updateExisting (resolvedName m) (resolvedSentiment m) es := by
  have h : processMention es m =
      (if (es.find? (fun e => e.name == resolvedName m)).isSome then
        updateExisting (resolvedName m) (resolvedSentiment m) es
      else
        es ++ [⟨resolvedName m, resolvedType m, resolvedSentiment m, 1,
                rolesGet (resolvedName m)⟩]) := rfl
  rw [h, if_pos hfind]

lemma processMention_neg (es : List EntityRecord) (m : EntityMention)
    (hfind : ¬ (es.find? (fun e => e.name == resolvedName m)).isSome) :
    processMention es m =
      es ++ [⟨resolvedName m, resolvedType m, resolvedSentiment m, 1,
              rolesGet (resolvedName m)⟩] := by
  have h : processMention es m =
      (if (es.find? (fun e => e.name == resolvedName m)).isSome then
        updateExisting (resolvedName m) (resolvedSentiment m) es
      else
        es ++ [⟨resolvedName m, resolvedType m, resolvedSentiment m, 1,
                rolesGet (resolvedName m)⟩]) := rfl
  rw [h, if_neg hfind]

lemma find?_isSome_iff_mem_names (es : List EntityRecord) (n : String) :
    (es.find? (fun e => e.name == n)).isSome ↔ n ∈ recordsNames es := by
  simp only [List.find?_isSome, beq_iff_eq, recordsNames, List.mem_map]

lemma recordsNames_updateExisting (n s : String) (es : List EntityRecord) :
    recordsNames (updateExisting n s es) = recordsNames es := by
  induction es with
  | nil => rfl
  | cons e rest ih =>
    simp only [updateExisting]
    split
    · simp [recordsNames, updRec]
    · simpa [recordsNames] using ih

lemma recordsNames_append (es fs : List EntityRecord) :
    recordsNames (es ++ fs) = recordsNames es ++ recordsNames fs := by
  simp [recordsNames]

lemma seenNames_go_mem (l : List String) :
    ∀ (acc : List String) (x : String),
      x ∈ l.foldl (fun acc n => if n ∈ acc then acc else acc ++ [n]) acc ↔
        x ∈ acc ∨ x ∈ l := by
  induction l with
  | nil => simp
  | cons n l ih =>
    intro acc x
    simp only [List.foldl_cons, ih, List.mem_cons]
    by_cases hn : n ∈ acc
    · simp only [if_pos hn]
      constructor
      · rintro (h | h) <;> tauto
      · rintro (h | h | h)
        · tauto
        · subst h; exact Or.inl hn
        · tauto
    · simp only [if_neg hn, List.mem_append, List.mem_singleton]
      tauto

lemma seenNames_go_nodup (l : List String) :
    ∀ acc : List String, acc.Nodup →
      (l.foldl (fun acc n => if n ∈ acc then acc else acc ++ [n]) acc).Nodup := by
  induction l with
  | nil => intro acc h; simpa using h
  | cons n l ih =>
    intro acc hacc
    simp only [List.foldl_cons]
    by_cases hn : n ∈ acc
    · simpa [hn] using ih acc hacc
    · refine ih _ ?_
      have hcat : (acc ++ [n]).Nodup := by
        simp [List.nodup_append, hacc, hn]
      simpa [if_neg hn] using hcat

lemma mem_seenNames (l : List String) (x : String) :
    x ∈ seenNames l ↔ x ∈ l := by
  simpa using seenNames_go_mem l [] x

lemma seenNames_nodup (l : List String) : (seenNames l).Nodup :=
  seenNames_go_nodup l [] List.nodup_nil

lemma seenNames_append (l : List String) (n : String) :
    seenNames (l ++ [n]) =
      if n ∈ seenNames l then seenNames l else seenNames l ++ [n] := by
  simp [seenNames, List.foldl_append]

lemma foldSentiment_append (c : String) (ss : List String) (s : String) :
    foldSentiment c (ss ++ [s]) =
      if s ≠ foldSentiment c ss then "mixed" else foldSentiment c ss := by
  simp [foldSentiment, List.foldl_append]

lemma foldSentiment_mixed (ss : List String) :
    foldSentiment "mixed" ss = "mixed" := by
  induction ss with
  | nil => rfl
  | cons s ss ih =>
    simp only [foldSentiment, List.foldl_cons, ite_self]
    exact ih

lemma foldSentiment_all_eq (c : String) (ss : List String)
    (h : ∀ s ∈ ss, s = c) : foldSentiment c ss = c := by
  induction ss with
  | nil => rfl
  | cons s ss ih =>
    have hs : s = c := h s (by simp)
    simp only [foldSentiment, List.foldl_cons, hs, ne_eq, not_true_eq_false,
      ite_false, if_neg]
    exact ih fun x hx => h x (by simp [hx])

lemma foldSentiment_of_mem_ne (ss : List String) :
    ∀ c s : String, s ∈ ss → s ≠ c → foldSentiment c ss = "mixed" := by
  induction ss with
  | nil => intro c s hs _; cases hs
  | cons a ss ih =>
    intro c s hs hne
    rcases List.mem_cons.mp hs with h | h
    · subst h
      simp only [foldSentiment, List.foldl_cons, if_pos hne]
      exact foldSentiment_mixed ss
    · by_cases ha : a ≠ c
      · simp only [foldSentiment, List.foldl_cons, if_pos ha]
        exact foldSentiment_mixed ss
      · push_neg at ha
        have hstep : foldSentiment c (a :: ss) = foldSentiment c ss := by
          simp [foldSentiment, ha]
        rw [hstep]
        exact ih c s h hne

lemma map_id_of_fix {α : Type} (f : α → α) (l : List α)
    (h : ∀ x ∈ l, f x = x) : l.map f = l := by
  induction l with
  | nil => rfl
  | cons a l ih =>
    simp [h a (by simp), ih fun x hx => h x (by simp [hx])]

lemma updateExisting_eq_map (n s : String) (es : List EntityRecord)
    (hnodup : (recordsNames es).Nodup) :
    updateExisting n s es =
      es.map (fun e => if e.name = n then updRec s e else e) := by
  induction es with
  | nil => rfl
  | cons e rest ih =>
    have hrest : (recordsNames rest).Nodup := by
      simpa [recordsNames] using hnodup.of_cons
    have hnotmem : e.name ∉ recordsNames rest := by
      have := hnodup
      simp only [recordsNames, List.map_cons, List.nodup_cons] at this
      simpa [recordsNames] using this.1
    simp only [updateExisting]
    by_cases hname : e.name = n
    · rw [if_pos (by simpa using hname), List.map_cons, if_pos hname]
      congr 1
      refine (map_id_of_fix _ rest fun x hx => ?_).symm
      have hx' : x.name ≠ n := by
        intro hxn
        exact hnotmem (by rw [hname, ← hxn]; exact List.mem_map_of_mem _ hx)
      rw [if_neg hx']
    · rw [if_neg (by simpa using hname), List.map_cons, if_neg hname, ih hrest]

lemma updateExisting_frame (n s : String) (es : List EntityRecord) :
    (updateExisting n s es).map (fun e => (e.name, e.type, e.government_role)) =
      es.map (fun e => (e.name, e.type, e.government_role)) := by
  induction es with
  | nil => rfl
  | cons e rest ih =>
    simp only [updateExisting]
    split
    · simp [updRec]
    · simpa using ih

lemma find?_rec_cons_pos (e : EntityRecord) (rest : List EntityRecord)
    (n : String) (h : (e.name == n) = true) :
    List.find? (fun x => x.name == n) (e :: rest) = some e := by
  simp [List.find?, h]

lemma find?_rec_cons_neg (e : EntityRecord) (rest : List EntityRecord)
    (n : String) (h : ¬ (e.name == n) = true) :
    List.find? (fun x => x.name == n) (e :: rest) =
      List.find? (fun x => x.name == n) rest := by
  simp [List.find?, h]

lemma sentimentOf_updateExisting_ne {n mn : String} (hne : n ≠ mn) (s : String)
    (es : List EntityRecord) :
    sentimentOf (updateExisting mn s es) n = sentimentOf es n := by
  induction es with
  | nil => rfl
  | cons e rest ih =>
    simp only [updateExisting]
    by_cases hmn : (e.name == mn) = true
    · rw [if_pos hmn]
      have hen : ¬ ((e.name == n) = true) := by
        simp only [beq_iff_eq] at hmn ⊢
        rw [hmn]
        exact fun hh => hne hh.symm
      have hen2 : ¬ (((updRec s e).name == n) = true) := hen
      simp only [sentimentOf]
      rw [find?_rec_cons_neg _ _ _ hen2, find?_rec_cons_neg _ _ _ hen]
    · rw [if_neg hmn]
      simp only [sentimentOf]
      by_cases hen : (e.name == n) = true
      · rw [find?_rec_cons_pos _ _ _ hen, find?_rec_cons_pos _ _ _ hen]
      · rw [find?_rec_cons_neg _ _ _ hen, find?_rec_cons_neg _ _ _ hen]
        simpa [sentimentOf] using ih

lemma sentimentOf_updateExisting_eq (n s : String) (es : List EntityRecord) :
    sentimentOf (updateExisting n s es) n =
      (es.find? (fun e => e.name == n)).map
        (fun e => if s ≠ e.sentiment then "mixed" else e.sentiment) := by
  induction es with
  | nil => rfl
  | cons e rest ih =>
    simp only [updateExisting]
    by_cases hen : (e.name == n) = true
    · rw [if_pos hen]
      have hen2 : (((updRec s e).name == n) = true) := hen
      simp only [sentimentOf]
      rw [find?_rec_cons_pos _ _ _ hen2, find?_rec_cons_pos _ _ _ hen]
      rfl
    · rw [if_neg hen]
      simp only [sentimentOf]
      rw [find?_rec_cons_neg _ _ _ hen, find?_rec_cons_neg _ _ _ hen]
      simpa [sentimentOf] using ih

lemma sentimentOf_append_left (es fs : List EntityRecord) (n : String)
    (h : (sentimentOf es n).isSome) :
    sentimentOf (es ++ fs) n = sentimentOf es n := by
  simp only [sentimentOf] at h ⊢
  rcases hfind : es.find? (fun e => e.name == n) with _ | e
  · rw [hfind] at h
    simp at h
  · rw [List.find?_append, hfind]
    rfl

lemma processMention_preserves_mixed (es : List EntityRecord)
    (m : EntityMention) (n : String) (h : sentimentOf es n = some "mixed") :
    sentimentOf (processMention es m) n = some "mixed" := by
  by_cases hfind : (es.find? (fun e => e.name == resolvedName m)).isSome
  · rw [processMention_pos es m hfind]
    by_cases hn : resolvedName m = n
    · subst hn
      rw [sentimentOf_updateExisting_eq]
      simp only [sentimentOf] at h
      rcases hfound : es.find? (fun e => e.name == resolvedName m) with _ | e
      · rw [hfound] at h; simp at h
      · rw [hfound] at h
        simp only [Option.map_some', Option.some.injEq] at h
        rw [hfound]
        simp [h]
    · exact (sentimentOf_updateExisting_ne (fun hh => hn hh.symm) _ es).trans h
  · rw [processMention_neg es m hfind]
    rw [sentimentOf_append_left _ _ _ (by simp [h])]
    exact h

lemma mentionsNamed_append_single (n : String) (ms : List EntityMention)
    (m : EntityMention) :
    mentionsNamed n (ms ++ [m]) =
      mentionsNamed n ms ++ (if resolvedName m = n then [m] else []) := by
  simp only [mentionsNamed, List.filter_append]
  congr 1
  by_cases h : resolvedName m = n
  · have hb : (resolvedName m == n) = true := beq_iff_eq.mpr h
    simp [List.filter, hb, h]
  · have hb : (resolvedName m == n) = false := by simpa using h
    simp [List.filter, hb, h]

lemma mentionsNamed_eq_nil (n : String) (ms : List EntityMention)
    (h : ∀ x ∈ ms, resolvedName x ≠ n) : mentionsNamed n ms = [] := by
  rw [mentionsNamed, List.filter_eq_nil_iff]
  intro a ha
  simpa using h a ha

lemma good_step {p : List EntityMention} {es : List EntityRecord}
    (hg : Good p es) (m : EntityMention) :
    Good (p ++ [m]) (processMention es m) := by
  obtain ⟨hnames, hrec⟩ := hg
  have hnodup : (recordsNames es).Nodup := by
    rw [hnames]; exact seenNames_nodup _
  by_cases hmem : resolvedName m ∈ recordsNames es
  · have hfind : (es.find? (fun e => e.name == resolvedName m)).isSome :=
      (find?_isSome_iff_mem_names es (resolvedName m)).mpr hmem
    rw [processMention_pos es m hfind]
    constructor
    · have hmem2 : resolvedName m ∈ seenNames (p.map resolvedName) := by
        rw [← hnames]; exact hmem
      rw [recordsNames_updateExisting, hnames, List.map_append, List.map_cons,
        List.map_nil, seenNames_append, if_pos hmem2]
    · intro e he
      rw [updateExisting_eq_map _ _ _ hnodup] at he
      obtain ⟨e0, he0, heq⟩ := List.mem_map.mp he
      obtain ⟨m0, rest, hfilter, htype, hrole, hcount, hsent⟩ := hrec e0 he0
      by_cases hname : e0.name = resolvedName m
      · rw [if_pos hname] at heq
        subst heq
        refine ⟨m0, rest ++ [m], ?_, ?_, ?_, ?_, ?_⟩
        · show mentionsNamed e0.name (p ++ [m]) = m0 :: (rest ++ [m])
          rw [mentionsNamed_append_single, hfilter, if_pos hname.symm]
          simp
        · exact htype
        · exact hrole
        · show e0.mention_count + 1 = (rest ++ [m]).length + 1
          simp [hcount]
        · show (if resolvedSentiment m ≠ e0.sentiment then "mixed"
              else e0.sentiment) =
            foldSentiment (resolvedSentiment m0)
              ((rest ++ [m]).map resolvedSentiment)
          rw [List.map_append, List.map_cons, List.map_nil,
            foldSentiment_append, ← hsent]
      · rw [if_neg hname] at heq
        subst heq
        refine ⟨m0, rest, ?_, htype, hrole, hcount, hsent⟩
        rw [mentionsNamed_append_single, hfilter,
          if_neg (fun hh => hname hh.symm), List.append_nil]
  · have hfind : ¬ (es.find? (fun e => e.name == resolvedName m)).isSome := by
      rw [find?_isSome_iff_mem_names]; exact hmem
    rw [processMention_neg es m hfind]
    constructor
    · have hmem2 : resolvedName m ∉ seenNames (p.map resolvedName) := by
        rw [← hnames]; exact hmem
      rw [recordsNames_append, hnames, List.map_append, List.map_cons,
        List.map_nil, seenNames_append, if_neg hmem2]
      rfl
    · intro e he
      rcases List.mem_append.mp he with he | he
      · obtain ⟨m0, rest, hfilter, htype, hrole, hcount, hsent⟩ := hrec e he
        refine ⟨m0, rest, ?_, htype, hrole, hcount, hsent⟩
        rw [mentionsNamed_append_single, hfilter, if_neg ?_, List.append_nil]
        intro hh
        apply hmem
        rw [hh]
        exact List.mem_map_of_mem _ he
      · have he2 : e = ⟨resolvedName m, resolvedType m, resolvedSentiment m, 1,
            rolesGet (resolvedName m)⟩ := by
          simpa using he
        subst he2
        refine ⟨m, [], ?_, rfl, rfl, rfl, rfl⟩
        show mentionsNamed (resolvedName m) (p ++ [m]) = [m]
        rw [mentionsNamed_append_single, if_pos rfl]
        have hnil : mentionsNamed (resolvedName m) p = [] := by
          refine mentionsNamed_eq_nil _ _ fun x hx hh => ?_
          apply hmem
          rw [hnames, ← hh]
          exact (mem_seenNames _ _).mpr (List.mem_map_of_mem _ hx)
        rw [hnil]
        rfl

lemma good_nil : Good [] [] := by
  constructor
  · rfl
  · intro e he
    cases he

lemma good_foldl (ms : List EntityMention) :
    ∀ (p : List EntityMention) (es : List EntityRecord), Good p es →
      Good (p ++ ms) (ms.foldl processMention es) := by
  induction ms with
  | nil =>
    intro p es h
    simpa using h
  | cons m ms ih =>
    intro p es h
    have h2 := ih (p ++ [m]) _ (good_step h m)
    simpa using h2

lemma foldl_processDocument_eq (docs : List Document) (es : List EntityRecord) :
    docs.foldl processDocument es =
      ((docs.map docMentions).flatten).foldl processMention es := by
  induction docs generalizing es with
  | nil => rfl
  | cons d docs ih =>
    simp only [List.foldl_cons, List.map_cons, List.flatten_cons,
      List.foldl_append]
    rw [ih]
    congr 1
    simp only [processDocument, docMentions, List.foldl_map]

lemma extract_eq_foldl (data : SentimentData) :
    extract_entities_from_sentiment_data data =
      (allMentions data).foldl processMention [] := by
  simp only [allMentions]
  rw [← foldl_processDocument_eq]
  rcases data with _ | ⟨docs, extra⟩
  · rfl
  · rcases docs with _ | l
    · simp [extract_entities_from_sentiment_data, SentimentData.truthy,
        SentimentData.documentsField]
    · simp [extract_entities_from_sentiment_data, SentimentData.truthy,
        SentimentData.documentsField]

lemma good_extract (data : SentimentData) :
    Good (allMentions data) (extract_entities_from_sentiment_data data) := by
  rw [extract_eq_foldl]
  simpa using good_foldl (allMentions data) [] [] good_nil

lemma countP_rec_cons (e : EntityRecord) (rest : List EntityRecord)
    (n : String) :
    List.countP (fun x => x.name == n) (e :: rest) =
      List.countP (fun x => x.name == n) rest +
        (if (e.name == n) = true then 1 else 0) := by
  by_cases hen : (e.name == n) = true
  · simp [List.countP_cons, hen]
  · simp [List.countP_cons, hen]

lemma countP_name_le_one (es : List EntityRecord) (n : String)
    (h : (recordsNames es).Nodup) :
    es.countP (fun e => e.name == n) ≤ 1 := by
  induction es with
  | nil => simp
  | cons e rest ih =>
    have h' : e.name ∉ List.map (fun x => x.name) rest ∧
        (List.map (fun x => x.name) rest).Nodup := by
      simp only [recordsNames, List.map_cons] at h
      exact List.nodup_cons.mp h
    obtain ⟨hnotmem, h1⟩ := h'
    rw [countP_rec_cons]
    by_cases hen : (e.name == n) = true
    · rw [if_pos hen]
      have hzero : rest.countP (fun x => x.name == n) = 0 := by
        rw [List.countP_eq_zero]
        intro a ha
        simp only [beq_iff_eq]
        intro hh
        apply hnotmem
        have hn : e.name = n := by simpa using hen
        rw [hn, ← hh]
        exact List.mem_map_of_mem _ ha
      rw [hzero]
    · rw [if_neg hen, Nat.add_zero]
      exact ih h1

/-- Claim C1: for every input document set, the aggregator produces exactly
one `EntityRecord` per distinct resolved `entity_name` across all
documents' mentions (the default `"Unknown"` counting as one such value):
the output length equals the number of distinct resolved names seen. -/
theorem extract_length_eq_distinct_names (data : SentimentData) :
    (extract_entities_from_sentiment_data data).length =
      ((allMentions data).map resolvedName).dedup.length := by
  have hg := good_extract data
  have hlen : (extract_entities_from_sentiment_data data).length =
      (recordsNames (extract_entities_from_sentiment_data data)).length := by
    simp [recordsNames]
  rw [hlen, hg.1]
  have h1 : (seenNames ((allMentions data).map resolvedName)).Nodup :=
    seenNames_nodup _
  have h2 : (seenNames ((allMentions data).map resolvedName)).toFinset =
      ((allMentions data).map resolvedName).toFinset := by
    ext x
    simp [List.mem_toFinset, mem_seenNames]
  calc (seenNames ((allMentions data).map resolvedName)).length
      = (seenNames ((allMentions data).map resolvedName)).toFinset.card :=
        (List.toFinset_card_of_nodup h1).symm
    _ = ((allMentions data).map resolvedName).toFinset.card := by rw [h2]
    _ = ((allMentions data).map resolvedName).dedup.length :=
        List.card_toFinset _

/-- Claim C2: each output record's `mention_count` equals the total number
of mention occurrences bearing that record's (defaulted) `entity_name`,
summed over all documents of the input. -/
theorem mention_count_eq_total_mentions (data : SentimentData)
    (e : EntityRecord) (he : e ∈ extract_entities_from_sentiment_data data) :
    e.mention_count = (mentionsNamed e.name (allMentions data)).length := by
  obtain ⟨m0, rest, hfilter, _, _, hcount, _⟩ := (good_extract data).2 e he
  rw [hfilter, hcount]
  simp

/-- Witness for C2 at the two-document sample input: `A` is mentioned once
in each document and its record counts 2. -/
theorem mention_count_eq_total_mentions_witness :
    sampleRecordA ∈ extract_entities_from_sentiment_data sampleData ∧
      sampleRecordA.mention_count =
        (mentionsNamed sampleRecordA.name (allMentions sampleData)).length :=
  ⟨by decide,
   mention_count_eq_total_mentions sampleData sampleRecordA (by decide)⟩

/-- Claim C3: if all (defaulted) sentiments of an entity's mentions agree,
the record's `sentiment` is that shared value; if any two of them differ,
the record's `sentiment` is `"mixed"`. -/
theorem sentiment_resolution (data : SentimentData) (e : EntityRecord)
    (he : e ∈ extract_entities_from_sentiment_data data) :
    (∀ c : String,
      (∀ m ∈ mentionsNamed e.name (allMentions data),
        resolvedSentiment m = c) → e.sentiment = c) ∧
    (∀ m1 ∈ mentionsNamed e.name (allMentions data),
      ∀ m2 ∈ mentionsNamed e.name (allMentions data),
        resolvedSentiment m1 ≠ resolvedSentiment m2 →
          e.sentiment = "mixed") := by
  obtain ⟨m0, rest, hfilter, _, _, _, hsent⟩ := (good_extract data).2 e he
  constructor
  · intro c hall
    rw [hfilter] at hall
    have h0 : resolvedSentiment m0 = c := hall m0 (by simp)
    rw [hsent, h0]
    refine foldSentiment_all_eq c _ fun s hs => ?_
    obtain ⟨x, hx, hxs⟩ := List.mem_map.mp hs
    rw [← hxs]
    exact hall x (by simp [hx])
  · intro m1 hm1 m2 hm2 hne
    rw [hfilter] at hm1 hm2
    rw [hsent]
    by_cases hall : ∀ s ∈ rest.map resolvedSentiment, s = resolvedSentiment m0
    · exfalso
      have h1 : resolvedSentiment m1 = resolvedSentiment m0 := by
        rcases List.mem_cons.mp hm1 with h | h
        · rw [h]
        · exact hall _ (List.mem_map_of_mem _ h)
      have h2 : resolvedSentiment m2 = resolvedSentiment m0 := by
        rcases List.mem_cons.mp hm2 with h | h
        · rw [h]
        · exact hall _ (List.mem_map_of_mem _ h)
      exact hne (h1.trans h2.symm)
    · push_neg at hall
      obtain ⟨s, hs, hsne⟩ := hall
      exact foldSentiment_of_mem_ne _ _ _ hs hsne

/-- Witness for C3: the two mentions of `A` in the sample input disagree
(negative vs positive) and the record's sentiment is `"mixed"`. -/
theorem sentiment_resolution_witness :
    sampleRecordA ∈ extract_entities_from_sentiment_data sampleData ∧
      sampleRecordA.sentiment = "mixed" :=
  ⟨by decide,
   (sentiment_resolution sampleData sampleRecordA (by decide)).2
     ⟨some "A", some "negative", some "PERSON"⟩ (by decide)
     ⟨some "A", some "positive", some "PERSON"⟩ (by decide) (by decide)⟩

/-- Claim C5: once a record's sentiment has been set to `"mixed"` during a
pass, it remains `"mixed"` for all subsequently processed mentions of that
entity, even when a later mention's sentiment matches the value the record
held before flipping: the `"mixed"` state is absorbing. -/
theorem mixed_state_absorbing (ms : List EntityMention)
    (es : List EntityRecord) (n : String)
    (h : sentimentOf es n = some "mixed") :
    sentimentOf (ms.foldl processMention es) n = some "mixed" := by
  induction ms generalizing es with
  | nil => exact h
  | cons m ms ih =>
    simp only [List.foldl_cons]
    exact ih _ (processMention_preserves_mixed es m n h)

/-- Witness for C5: a roster holding `A` as `"mixed"` still holds it as
`"mixed"` after a further negative mention of `A` — the sentiment that the
record held before flipping to `"mixed"`. -/
theorem mixed_state_absorbing_witness :
    sentimentOf [sampleRecordA] "A" = some "mixed" ∧
      sentimentOf
        ([⟨some "A", some "negative", none⟩].foldl processMention
          [sampleRecordA]) "A" = some "mixed" :=
  ⟨by decide,
   mixed_state_absorbing [⟨some "A", some "negative", none⟩]
     [sampleRecordA] "A" (by decide)⟩

/-- Claim C6: missing mention fields never make the aggregator fail (the
embedding is a total function) and degrade to defaults: a missing
`entity_type` resolves to `"Unknown"`, a missing `sentiment` to
`"neutral"`, and a missing `entity_name` to the literal `"Unknown"`; all
differently-keyed mentions lacking a name collapse into the single record
named `"Unknown"` — the output never holds two records with that name. -/
theorem missing_fields_default :
    (∀ s t : Option String, resolvedName ⟨none, s, t⟩ = "Unknown") ∧
    (∀ n t : Option String, resolvedSentiment ⟨n, none, t⟩ = "neutral") ∧
    (∀ n s : Option String, resolvedType ⟨n, s, none⟩ = "Unknown") ∧
    (∀ data : SentimentData,
      (extract_entities_from_sentiment_data data).countP
        (fun e => e.name == "Unknown") ≤ 1) := by
  refine ⟨fun _ _ => rfl, fun _ _ => rfl, fun _ _ => rfl, fun data => ?_⟩
  refine countP_name_le_one _ _ ?_
  rw [(good_extract data).1]
  exact seenNames_nodup _

/-- Claim C7: every record's role equals the role table's entry for the
entity's resolved name when that name is a key of the table, and the
sentinel `"Unknown Role"` otherwise. -/
theorem role_resolution (data : SentimentData) (e : EntityRecord)
    (he : e ∈ extract_entities_from_sentiment_data data) :
    (∀ r : String, roleLookup e.name = some r → e.government_role = r) ∧
    (roleLookup e.name = none → e.government_role = "Unknown Role") := by
  obtain ⟨m0, rest, _, _, hrole, _, _⟩ := (good_extract data).2 e he
  constructor
  · intro r hr
    rw [hrole, rolesGet, hr]
    rfl
  · intro hr
    rw [hrole, rolesGet, hr]
    rfl

/-- Witness for C7: the record for `"Ana Rojas"` carries the table's
`"Defense Chief"` role. -/
theorem role_resolution_witness :
    roleRecord ∈ extract_entities_from_sentiment_data roleData ∧
      roleLookup roleRecord.name = some "Defense Chief" ∧
      roleRecord.government_role = "Defense Chief" :=
  ⟨by decide, by decide,
   (role_resolution roleData roleRecord (by decide)).1 "Defense Chief"
     (by decide)⟩

/-- Claim C8: an input whose document sequence is empty, or whose documents
all have empty mention mappings, yields the empty output sequence; the
embedding is a total function, so no error is signalled. -/
theorem empty_docs_empty_output (extra : Nat) (docs : List Document)
    (h : ∀ d ∈ docs, d.entities = []) :
    extract_entities_from_sentiment_data (.obj (some docs) extra) = [] := by
  rw [extract_eq_foldl]
  have hnil : allMentions (.obj (some docs) extra) = [] := by
    simp only [allMentions, SentimentData.documentsField, Option.getD_some]
    rw [List.flatten_eq_nil_iff]
    intro l hl
    obtain ⟨d, hd, hdl⟩ := List.mem_map.mp hl
    rw [← hdl, docMentions, h d hd]
    rfl
  rw [hnil]
  rfl

/-- Witness for C8: one document with an empty mention mapping yields the
empty roster. -/
theorem empty_docs_empty_output_witness :
    (∀ d ∈ [(⟨[]⟩ : Document)], d.entities = ([] : List (String × EntityMention))) ∧
      extract_entities_from_sentiment_data (.obj (some [⟨[]⟩]) 0) = [] :=
  ⟨by decide, empty_docs_empty_output 0 [⟨[]⟩] (by decide)⟩

/-- Claim C9: processing a mention whose entity already has a record can
change only that record's `mention_count` and `sentiment`: the roster's
projection to (name, type, role) is left exactly as it was; moreover every
output record's `type` is the first-encountered mention's resolved type,
and its role was fixed from the name at creation. -/
theorem existing_record_frame :
    (∀ (es : List EntityRecord) (m : EntityMention),
      (es.find? (fun e => e.name == resolvedName m)).isSome →
      (processMention es m).map (fun e => (e.name, e.type, e.government_role)) =
        es.map (fun e => (e.name, e.type, e.government_role))) ∧
    (∀ (data : SentimentData) (e : EntityRecord),
      e ∈ extract_entities_from_sentiment_data data →
      ∃ m rest, mentionsNamed e.name (allMentions data) = m :: rest ∧
        e.type = resolvedType m ∧ e.government_role = rolesGet e.name) := by
  constructor
  · intro es m hfind
    rw [processMention_pos es m hfind]
    exact updateExisting_frame _ _ es
  · intro data e he
    obtain ⟨m0, rest, hfilter, htype, hrole, _, _⟩ := (good_extract data).2 e he
    exact ⟨m0, rest, hfilter, htype, hrole⟩

/-- Witness for C9: a second mention of `A` against a roster that already
holds `A` leaves the (name, type, role) projection unchanged, and the
sample record's type is its first mention's type. -/
theorem existing_record_frame_witness :
    ((processMention [sampleRecordA] ⟨some "A", some "positive", none⟩).map
        (fun e => (e.name, e.type, e.government_role)) =
      [sampleRecordA].map (fun e => (e.name, e.type, e.government_role))) ∧
    (∃ m rest,
      mentionsNamed sampleRecordA.name (allMentions sampleData) = m :: rest ∧
        sampleRecordA.type = resolvedType m ∧
        sampleRecordA.government_role = rolesGet sampleRecordA.name) :=
  ⟨existing_record_frame.1 [sampleRecordA] ⟨some "A", some "positive", none⟩
     (by decide),
   existing_record_frame.2 sampleData sampleRecordA (by decide)⟩

/-- Claim C10: a `None` top-level value, an empty top-level mapping, and a
mapping (of any size) lacking the `documents` key all make the aggregator
return the empty list rather than raise: the absent document sequence is
treated as empty. -/
theorem falsy_or_missing_documents :
    extract_entities_from_sentiment_data .null = [] ∧
    (∀ extra : Nat,
      extract_entities_from_sentiment_data (.obj none extra) = []) := by
  constructor
  · rfl
  · intro extra
    simp [extract_entities_from_sentiment_data, SentimentData.documentsField]

end Panama
